import Mathlib

/-!
Shallow embedding of the Hyperplane file manager's file-operation / undo
engine (`hyperplane/main.py`) and preview pipeline (`hyperplane/item.py`).

Paths are modelled as lists of components (the parts of a `pathlib.Path`);
the filesystem as the list of paths that currently exist.  Each clipboard
or selection entry carries the Boolean outcome of the OS calls that the
source wraps in `try`/`except` (`osFail`, `trashFail`, `decode_ok`), so
every embedded operation is a total function of the state and those
oracles.
-/

namespace Hyperplane

/-- A filesystem path, as its list of components. -/
abbrev Path := List String

/-- `pathlib.Path.name`: the final component. -/
def Pathname (p : Path) : String := p.getLastD ""

/-- One recorded batch in `HypApplication.undo_queue` (`main.py`):
`("copy", paths, page)`, `("cut", paths, page, cut_page)`,
`("rename", new_file, old_name, page)`, `("trash", files, items_page)`.
The page references only trigger view refreshes and are not modelled. -/
inductive UndoAction where
  | copy (created : List Path)
  | cut (pairs : List (Path × Path))
  | rename (new_file : Path) (old_name : String)
  | trash (files : List (Path × Nat))
deriving DecidableEq, Repr

/-- The application state touched by the file-operation engine: the
filesystem, the platform trash store, `HypApplication.undo_queue` (an
insertion-ordered dict whose keys — `time()` floats or toast objects —
are modelled as `Nat`), and the toasts sent so far (the notification
surface). -/
structure AppState where
  fs : List Path
  trashed : List (Path × Nat)
  undo_queue : List (Nat × UndoAction)
  toasts : List String
deriving DecidableEq, Repr

/-- Undo of a `"copy"` entry (`main.py` 172-177): each recorded created
path is deleted (`shutil.rmtree(..., ignore_errors=True)` for
directories, `unlink(missing_ok=True)` otherwise). -/
def copyUndoFold (created : List Path) (fs : List Path) : List Path :=
  created.foldl (fun acc trash_item => acc.erase trash_item) fs

/-- Undo of a `"cut"` entry (`main.py` 181-184): for each recorded
`(src, dst)` pair, if `dst` still exists it is moved back onto `src`. -/
def cutUndoFold (pairs : List (Path × Path)) (fs : List Path) : List Path :=
  pairs.foldl
    (fun acc paths => if paths.2 ∈ acc then paths.1 :: acc.erase paths.2 else acc) fs

/-- Modelled from the spec: `restore_file` (imported from
`hyperplane.utils.restore_file`, whose source file is not available) —
"Restore: the inverse of Trash, looked up by original-path + timestamp;
fails per-item if the trashed object can no longer be found." -/
def restore_file (orig : Path) (ts : Nat) (st : AppState) : AppState :=
  if (orig, ts) ∈ st.trashed then
    { st with trashed := st.trashed.erase (orig, ts), fs := orig :: st.fs }
  else st

/-- Undo of a `"trash"` entry (`main.py` 201-203):
`restore_file(*trash_item)` for each recorded
`(original path, timestamp)` pair. -/
def trashUndoFold (files : List (Path × Nat)) (st : AppState) : AppState :=
  files.foldl (fun acc trash_item => restore_file trash_item.1 trash_item.2 acc) st

/-- The `match item[0]` body of `HypApplication.__undo` (`main.py`
171-206).  In the `"rename"` arm, `set_display_name` raises `GLib.Error`
when the target file no longer exists, and the handler is
`except GLib.Error: pass`. -/
def applyUndoAction (st : AppState) : UndoAction → AppState
  | .copy created => { st with fs := copyUndoFold created st.fs }
  | .cut pairs => { st with fs := cutUndoFold pairs st.fs }
  | .rename new_file old_name =>
      if new_file ∈ st.fs then
        { st with fs := (new_file.dropLast ++ [old_name]) :: st.fs.erase new_file }
      else st
  | .trash files => trashUndoFold files st

/-- `self.undo_queue[index]`: dict lookup by key. -/
def lookupEntry (k : Nat) : List (Nat × UndoAction) → Option UndoAction
  | [] => none
  | e :: rest => if e.1 = k then some e.2 else lookupEntry k rest

/-- `HypApplication.__undo` (`main.py` 160-210).  `toast = some k` models
being invoked from a toast's undo button (the `isinstance(toast,
Adw.Toast)` branch), `none` the default `app.undo` action, whose `index`
is the last key of the dict.  A failing dict lookup raises `KeyError` in
Python before any mutation, modelled as returning the state unchanged.
`self.undo_queue.popitem()` removes the last-inserted entry. -/
def undo (toast : Option Nat) (st : AppState) : AppState :=
  if hq : st.undo_queue = [] then st
  else
    match lookupEntry
        (match toast with
          | some t => t
          | none => (st.undo_queue.getLast hq).1)
        st.undo_queue with
    | none => st
    | some item =>
        { applyUndoAction st item with
            undo_queue := (applyUndoAction st item).undo_queue.dropLast }

/-- One clipboard line of `HypApplication.__paste` (`main.py` 383-431):
the source path, the value of `src.is_dir()`, and whether the underlying
copy/move call raises one of the caught OS-level exceptions (permission,
cross-device, destination-is-a-directory, ...). -/
structure ClipItem where
  src : Path
  is_dir : Bool
  osFail : Bool
deriving DecidableEq, Repr

/-- The per-line loop of `__paste` when `self.cut_page` is set
(`main.py` 383-411): a vanished source is skipped; `shutil.move(src,
dst.parent)` raising a caught exception — which includes the
`shutil.Error` raised when `dst` already exists — skips the item;
success records the `(src, dst)` pair. -/
def pasteCutLoop (dstDir : Path) : List ClipItem → List Path → List Path × List (Path × Path)
  | [], fs => (fs, [])
  | it :: rest, fs =>
    if it.src ∈ fs then
      -- dst = dst / src.name
      if it.osFail = true ∨ dstDir ++ [Pathname it.src] ∈ fs then
        pasteCutLoop dstDir rest fs
      else
        ((pasteCutLoop dstDir rest ((dstDir ++ [Pathname it.src]) :: fs.erase it.src)).1,
          (it.src, dstDir ++ [Pathname it.src]) ::
            (pasteCutLoop dstDir rest ((dstDir ++ [Pathname it.src]) :: fs.erase it.src)).2)
    else
      pasteCutLoop dstDir rest fs

/-- The per-line loop of `__paste` when pasting a copy (`main.py`
383-398 and 413-431): for a directory, `shutil.copytree` fails on a
pre-existing destination (`FileExistsError`, answered with a toast); for
a file, `shutil.copyfile` overwrites a pre-existing destination and
fails only on a caught `OSError`-family exception; success records the
created destination path. -/
def pasteCopyLoop (dstDir : Path) :
    List ClipItem → List Path → List Path × List Path × List String
  | [], fs => (fs, [], [])
  | it :: rest, fs =>
    if it.src ∈ fs then
      -- dst = dst / src.name
      if it.is_dir = true then
        if dstDir ++ [Pathname it.src] ∈ fs then
          ((pasteCopyLoop dstDir rest fs).1, (pasteCopyLoop dstDir rest fs).2.1,
            "A folder with that name already exists." :: (pasteCopyLoop dstDir rest fs).2.2)
        else
          ((pasteCopyLoop dstDir rest ((dstDir ++ [Pathname it.src]) :: fs)).1,
            (dstDir ++ [Pathname it.src]) ::
              (pasteCopyLoop dstDir rest ((dstDir ++ [Pathname it.src]) :: fs)).2.1,
            (pasteCopyLoop dstDir rest ((dstDir ++ [Pathname it.src]) :: fs)).2.2)
      else
        if it.osFail = true then
          pasteCopyLoop dstDir rest fs
        else
          ((pasteCopyLoop dstDir rest
              (if dstDir ++ [Pathname it.src] ∈ fs then fs
               else (dstDir ++ [Pathname it.src]) :: fs)).1,
            (dstDir ++ [Pathname it.src]) ::
              (pasteCopyLoop dstDir rest
                (if dstDir ++ [Pathname it.src] ∈ fs then fs
                 else (dstDir ++ [Pathname it.src]) :: fs)).2.1,
            (pasteCopyLoop dstDir rest
              (if dstDir ++ [Pathname it.src] ∈ fs then fs
               else (dstDir ++ [Pathname it.src]) :: fs)).2.2)
    else
      pasteCopyLoop dstDir rest fs

/-- A path that lies directly inside the paste destination directory,
i.e. equals `dstDir / its own final component`.  Every destination path
of a paste has this shape; no recorded move source does. -/
def InDst (dstDir p : Path) : Prop := p = dstDir ++ [Pathname p]

/-- Tail of `__paste` in cut mode (`main.py` 433-440): the batch is
pushed onto `undo_queue` unconditionally, keyed by `time()`. -/
def pasteCut (dstDir : Path) (key : Nat) (items : List ClipItem) (st : AppState) : AppState :=
  { st with
      fs := (pasteCutLoop dstDir items st.fs).1
      undo_queue := st.undo_queue ++ [(key, .cut (pasteCutLoop dstDir items st.fs).2)] }

/-- Tail of `__paste` in copy mode (`main.py` 433-440): the batch is
pushed onto `undo_queue` unconditionally, keyed by `time()`. -/
def pasteCopy (dstDir : Path) (key : Nat) (items : List ClipItem) (st : AppState) : AppState :=
  { st with
      fs := (pasteCopyLoop dstDir items st.fs).1
      toasts := st.toasts ++ (pasteCopyLoop dstDir items st.fs).2.2
      undo_queue := st.undo_queue ++ [(key, .copy (pasteCopyLoop dstDir items st.fs).2.1)] }

/-- One selected item of `HypApplication.__trash` (`main.py` 526-540):
its path, the value `int(time())` takes at its iteration, and whether
`gfile.trash()` raises `GLib.Error`. -/
structure TrashSel where
  path : Path
  ts : Nat
  trashFail : Bool
deriving DecidableEq, Repr

/-- The selection loop of `__trash` (`main.py` 526-540): a failing
`trash()` call is skipped (`except GLib.Error: pass`); success moves the
file into the trash store and records `(original path, timestamp)`. -/
def trashLoop : List TrashSel → AppState → AppState × List (Path × Nat)
  | [], st => (st, [])
  | c :: rest, st =>
    if c.trashFail = true then
      trashLoop rest st
    else
      ((trashLoop rest
          { st with fs := st.fs.erase c.path, trashed := (c.path, c.ts) :: st.trashed }).1,
        (c.path, c.ts) ::
          (trashLoop rest
            { st with
                fs := st.fs.erase c.path
                trashed := (c.path, c.ts) :: st.trashed }).2)

/-- The toast message of `__trash` (`main.py` 547-551); the singular
message interpolates a file name, which is irrelevant here. -/
def trashMessage (n : Nat) : String :=
  if n > 1 then toString n ++ " files moved to trash" else "moved to trash"

/-- `HypApplication.__trash` (`main.py` 520-556): `if not n: return`
creates no undo entry and sends no toast; otherwise one toast is sent
and the batch is pushed onto `undo_queue`, keyed by the toast. -/
def trash (key : Nat) (sel : List TrashSel) (st : AppState) : AppState :=
  if (trashLoop sel st).2.length = 0 then (trashLoop sel st).1
  else
    { (trashLoop sel st).1 with
        toasts :=
          (trashLoop sel st).1.toasts ++ [trashMessage (trashLoop sel st).2.length]
        undo_queue :=
          (trashLoop sel st).1.undo_queue ++ [(key, .trash (trashLoop sel st).2)] }

/-- What one `next_files_async` round of `HypItem.__dir_children_cb`
(`item.py` 228-310) observes: `next_files_finish` raising, an empty
result list, a child with a falsy content type, or a usable child. -/
inductive EnumStep where
  | err
  | emptyResult
  | noContentType
  | child (is_dir : Bool) (has_thumbnail : Bool)
deriving DecidableEq, Repr

/-- One sampled child of a directory preview. -/
structure ChildSample where
  is_dir : Bool
  has_thumbnail : Bool
deriving DecidableEq, Repr

/-- `bool(index)` as passed through `done` to
`__thumbnail_cb(open_folder=...)`. -/
def openFlag (index : Nat) : Bool := index != 0

/-- `next_files_cb` of `__dir_children_cb` (`item.py` 228-310): stops
via `done(index - 1)` once `index == 3`, and via `done(index)` on an
enumeration error, an empty result, or a child without a content type;
otherwise it records the sample and re-arms `next_files_async` with
`index + 1`.  Returns the collected samples and the final `open_folder`
flag. -/
def next_files_cb : Nat → List EnumStep → List ChildSample × Bool
  | index, steps =>
    if index = 3 then ([], openFlag (index - 1))
    else
      match steps with
      | [] => ([], openFlag index)
      | .err :: _ => ([], openFlag index)
      | .emptyResult :: _ => ([], openFlag index)
      | .noContentType :: _ => ([], openFlag index)
      | .child d t :: rest =>
        (ChildSample.mk d t :: (next_files_cb (index + 1) rest).1,
          (next_files_cb (index + 1) rest).2)

/-- `HypItem.__dir_children_cb` (`item.py` 212-310): when
`enumerate_children_finish` raises, `__thumbnail_cb()` runs with the
default `open_folder=False` and no samples were taken; otherwise the
`next_files_cb` chain starts at index 0. -/
def dir_children_cb (enumerateOk : Bool) (steps : List EnumStep) : List ChildSample × Bool :=
  if enumerateOk = true then next_files_cb 0 steps else ([], false)

/-- Ghost view of one recycled list-item slot (`HypItem`): `latest`
counts `bind` calls — the spec's generation token, which the code itself
does not store anywhere — and `applied` lists, in order, the request
generations whose results were written to the widget
(`self.thumbnail_paintable = texture`, `item.py` 369). -/
structure SlotState where
  latest : Nat
  applied : List Nat
deriving DecidableEq, Repr

/-- Slot-level events: the factory rebinding the recycled item
(`HypItem.bind`, `item.py` 137-207, which issues a new preview request),
and an in-flight thumbnail callback completing for the request issued at
generation `gen` (`HypItem.__thumbnail_cb`, `item.py` 324-383). -/
inductive SlotEvent where
  | bind (gen : Nat)
  | deliver (gen : Nat)
deriving DecidableEq, Repr

/-- `HypItem.unbind` (`item.py` 209-210): the body is empty — it cancels
nothing and invalidates no in-flight request. -/
def unbind (st : SlotState) : SlotState := st

/-- One slot event: a rebind goes through `unbind` and raises the ghost
generation counter; a delivery appends its result unconditionally, since
`__thumbnail_cb` performs no token comparison before
`self.thumbnail_paintable = texture`. -/
def slotStep (st : SlotState) : SlotEvent → SlotState
  | .bind g => { unbind st with latest := g }
  | .deliver g => { st with applied := st.applied ++ [g] }

/-- A slot's trace. -/
def slotRun (st : SlotState) : List SlotEvent → SlotState
  | [] => st
  | e :: rest => slotRun (slotStep st e) rest

/-- A texture (decoded image). -/
abbrev Texture := String

/-- `Gio.FilesystemPreviewType.NEVER`. -/
def FILESYSTEM_PREVIEW_NEVER : Nat := 2

/-- The metadata `HypItem.bind` reads for a non-directory item
(`item.py` 182-205): the cached `THUMBNAIL_PATH` attribute if any,
whether `Gdk.Texture.new_from_filename` on it succeeds, and the
`FILESYSTEM_USE_PREVIEW` attribute. -/
structure FileInfo where
  thumbnail_path : Option String
  decode_ok : Bool
  use_preview : Nat
deriving DecidableEq, Repr

/-- What `__thumbnail_cb` renders for a file (`item.py` 324-383): with a
texture it becomes the thumbnail paintable; with `None` the fallback
icon styling is applied.  No error outcome exists. -/
inductive Delivery where
  | thumbnailTexture (t : Texture)
  | fallbackIcon
deriving DecidableEq, Repr

/-- The file branch of `__thumbnail_cb` (`item.py` 324-383). -/
def thumbnail_cb_file : Option Texture → Delivery
  | some t => .thumbnailTexture t
  | none => .fallbackIcon

/-- What the file branch of `HypItem.bind` does right away. -/
inductive BindDispatch where
  | delivered (d : Delivery)
  | generationScheduled
deriving DecidableEq, Repr

/-- The thumbnail dispatch of `HypItem.bind` for a file (`item.py`
182-205): a cached thumbnail path is decoded, a decode error yielding
`texture = None`; with no cached path, generation is scheduled on a
thread unless `FILESYSTEM_USE_PREVIEW` is `NEVER`, in which case
`__thumbnail_cb()` runs immediately with no texture. -/
def bind_file_thumbnail (fi : FileInfo) : BindDispatch :=
  match fi.thumbnail_path with
  | some p => .delivered (thumbnail_cb_file (if fi.decode_ok = true then some p else none))
  | none =>
    if fi.use_preview ≠ FILESYSTEM_PREVIEW_NEVER then .generationScheduled
    else .delivered (thumbnail_cb_file none)

/-- Modelled from the spec: `generate_thumbnail`
(`hyperplane.utils.thumbnail`, source file not available) — "Generation
is not retried automatically; a failure yields `Failed`, which the
pipeline maps to `FallbackIcon`": the worker hands the callback a
texture on success and nothing on failure. -/
def generate_thumbnail (ok : Bool) (tex : Texture) : Option Texture :=
  if ok = true then some tex else none

/-! Helper lemmas. -/

theorem Pathname_concat (l : Path) (y : String) : Pathname (l ++ [y]) = y :=
  List.getLastD_concat _ _ _

theorem InDst_concat (dstDir : Path) (y : String) : InDst dstDir (dstDir ++ [y]) := by
  unfold InDst
  rw [Pathname_concat]

/-- A path of destination shape that exists before the cut loop still
exists after it: the loop only ever erases a move source, and a move
whose source is such a path computes a destination equal to the source,
which then already exists, so the move fails and erases nothing. -/
theorem pasteCutLoop_preserves (dstDir : Path) (items : List ClipItem) :
    ∀ (fs : List Path) (d : Path),
      InDst dstDir d → d ∈ fs → d ∈ (pasteCutLoop dstDir items fs).1 := by
  induction items with
  | nil => intro fs d _ hd; simpa [pasteCutLoop] using hd
  | cons it rest ih =>
    intro fs d hin hd
    simp only [pasteCutLoop]
    by_cases hsrc : it.src ∈ fs
    · rw [if_pos hsrc]
      by_cases hfail : it.osFail = true ∨ dstDir ++ [Pathname it.src] ∈ fs
      · rw [if_pos hfail]
        exact ih fs d hin hd
      · rw [if_neg hfail]
        have hdstnot : dstDir ++ [Pathname it.src] ∉ fs := fun h => hfail (Or.inr h)
        have hne : d ≠ it.src := by
          intro he
          apply hdstnot
          have hdd : dstDir ++ [Pathname it.src] = d := by rw [← he, ← hin]
          rw [hdd]; exact hd
        exact ih _ d hin (List.mem_cons_of_mem _ ((List.mem_erase_of_ne hne).mpr hd))
    · rw [if_neg hsrc]
      exact ih fs d hin hd

/-- Every pair the cut loop records has a destination-shaped `dst` equal
to `dstDir / src.name`, a source that is not destination-shaped, and a
destination that still exists when the loop finishes. -/
theorem pasteCutLoop_pairs (dstDir : Path) (items : List ClipItem) :
    ∀ (fs : List Path) (sd : Path × Path), sd ∈ (pasteCutLoop dstDir items fs).2 →
      sd.2 = dstDir ++ [Pathname sd.1] ∧ ¬ InDst dstDir sd.1 ∧ InDst dstDir sd.2 ∧
        sd.2 ∈ (pasteCutLoop dstDir items fs).1 := by
  induction items with
  | nil => intro fs sd h; simp [pasteCutLoop] at h
  | cons it rest ih =>
    intro fs sd h
    simp only [pasteCutLoop] at h ⊢
    by_cases hsrc : it.src ∈ fs
    · rw [if_pos hsrc] at h ⊢
      by_cases hfail : it.osFail = true ∨ dstDir ++ [Pathname it.src] ∈ fs
      · rw [if_pos hfail] at h ⊢
        exact ih fs sd h
      · rw [if_neg hfail] at h ⊢
        have hdstnot : dstDir ++ [Pathname it.src] ∉ fs := fun hh => hfail (Or.inr hh)
        rcases List.mem_cons.mp h with he | ht
        · rw [he]
          refine ⟨rfl, ?_, InDst_concat dstDir _, ?_⟩
          · intro hcontra
            apply hdstnot
            have hdd : dstDir ++ [Pathname it.src] = it.src := by rw [← hcontra]
            rw [hdd]; exact hsrc
          · exact pasteCutLoop_preserves dstDir rest _ _ (InDst_concat dstDir _)
              (List.mem_cons_self _ _)
        · exact ih _ sd ht
    · rw [if_neg hsrc] at h ⊢
      exact ih fs sd h

/-- No pair the cut loop records has as destination a destination-shaped
path that already existed when the loop started. -/
theorem pasteCutLoop_dst_ne (dstDir : Path) (items : List ClipItem) :
    ∀ (fs : List Path) (d : Path), InDst dstDir d → d ∈ fs →
      ∀ sd ∈ (pasteCutLoop dstDir items fs).2, sd.2 ≠ d := by
  induction items with
  | nil => intro fs d _ _ sd h; simp [pasteCutLoop] at h
  | cons it rest ih =>
    intro fs d hin hd sd h
    simp only [pasteCutLoop] at h
    by_cases hsrc : it.src ∈ fs
    · rw [if_pos hsrc] at h
      by_cases hfail : it.osFail = true ∨ dstDir ++ [Pathname it.src] ∈ fs
      · rw [if_pos hfail] at h
        exact ih fs d hin hd sd h
      · rw [if_neg hfail] at h
        have hdstnot : dstDir ++ [Pathname it.src] ∉ fs := fun hh => hfail (Or.inr hh)
        have hne : d ≠ it.src := by
          intro he
          apply hdstnot
          have hdd : dstDir ++ [Pathname it.src] = d := by rw [← he, ← hin]
          rw [hdd]; exact hd
        rcases List.mem_cons.mp h with he | ht
        · intro hc
          rw [he] at hc
          have hc2 : dstDir ++ [Pathname it.src] = d := hc
          exact hdstnot (by rw [hc2]; exact hd)
        · exact ih _ d hin (List.mem_cons_of_mem _ ((List.mem_erase_of_ne hne).mpr hd))
            sd ht
    · rw [if_neg hsrc] at h
      exact ih fs d hin hd sd h

/-- The destinations the cut loop records are pairwise distinct. -/
theorem pasteCutLoop_nodup (dstDir : Path) (items : List ClipItem) :
    ∀ fs : List Path, ((pasteCutLoop dstDir items fs).2.map Prod.snd).Nodup := by
  induction items with
  | nil => intro fs; simp [pasteCutLoop]
  | cons it rest ih =>
    intro fs
    simp only [pasteCutLoop]
    by_cases hsrc : it.src ∈ fs
    · rw [if_pos hsrc]
      by_cases hfail : it.osFail = true ∨ dstDir ++ [Pathname it.src] ∈ fs
      · rw [if_pos hfail]
        exact ih fs
      · rw [if_neg hfail]
        simp only [List.map_cons, List.nodup_cons]
        constructor
        · intro hmem
          rcases List.mem_map.mp hmem with ⟨sd, hsd, hEq⟩
          exact pasteCutLoop_dst_ne dstDir rest _ (dstDir ++ [Pathname it.src])
            (InDst_concat dstDir _) (List.mem_cons_self _ _) sd hsd hEq
        · exact ih _
    · rw [if_neg hsrc]
      exact ih fs

/-- Every pair the cut loop records comes from a clipboard item whose
move raised no exception; in particular an item with `osFail` set never
contributes a pair. -/
theorem pasteCutLoop_origin (dstDir : Path) (items : List ClipItem) :
    ∀ (fs : List Path) (sd : Path × Path), sd ∈ (pasteCutLoop dstDir items fs).2 →
      ∃ it ∈ items, it.osFail = false ∧ it.src = sd.1 ∧
        sd.2 = dstDir ++ [Pathname it.src] := by
  induction items with
  | nil => intro fs sd h; simp [pasteCutLoop] at h
  | cons it rest ih =>
    intro fs sd h
    simp only [pasteCutLoop] at h
    by_cases hsrc : it.src ∈ fs
    · rw [if_pos hsrc] at h
      by_cases hfail : it.osFail = true ∨ dstDir ++ [Pathname it.src] ∈ fs
      · rw [if_pos hfail] at h
        obtain ⟨x, hx, hrest⟩ := ih fs sd h
        exact ⟨x, List.mem_cons_of_mem _ hx, hrest⟩
      · rw [if_neg hfail] at h
        rcases List.mem_cons.mp h with he | ht
        · refine ⟨it, List.mem_cons_self _ _, ?_, ?_, ?_⟩
          · cases hb : it.osFail with
            | false => rfl
            | true => exact absurd (Or.inl hb) hfail
          · rw [he]
          · rw [he]
        · obtain ⟨x, hx, hrest⟩ := ih _ sd ht
          exact ⟨x, List.mem_cons_of_mem _ hx, hrest⟩
    · rw [if_neg hsrc] at h
      obtain ⟨x, hx, hrest⟩ := ih fs sd h
      exact ⟨x, List.mem_cons_of_mem _ hx, hrest⟩

theorem cutUndoFold_cons (sd : Path × Path) (pairs : List (Path × Path)) (fs : List Path) :
    cutUndoFold (sd :: pairs) fs =
      cutUndoFold pairs (if sd.2 ∈ fs then sd.1 :: fs.erase sd.2 else fs) := rfl

/-- Undoing a cut never loses a path that is not destination-shaped:
each undo move only erases its recorded (destination-shaped) `dst`. -/
theorem cutUndoFold_preserves (dstDir : Path) (pairs : List (Path × Path)) :
    ∀ (fs : List Path) (q : Path),
      (∀ sd ∈ pairs, InDst dstDir sd.2) → ¬ InDst dstDir q → q ∈ fs →
      q ∈ cutUndoFold pairs fs := by
  induction pairs with
  | nil => intro fs q _ _ hq; simpa [cutUndoFold] using hq
  | cons sd rest ih =>
    intro fs q hall hq hmem
    rw [cutUndoFold_cons]
    apply ih _ q (fun x hx => hall x (List.mem_cons_of_mem _ hx)) hq
    by_cases hd : sd.2 ∈ fs
    · rw [if_pos hd]
      have hne : q ≠ sd.2 := by
        intro he
        exact hq (by rw [he]; exact hall sd (List.mem_cons_self _ _))
      exact List.mem_cons_of_mem _ ((List.mem_erase_of_ne hne).mpr hmem)
    · rw [if_neg hd]
      exact hmem

/-- Undoing a cut restores every recorded source: the pairwise-distinct
destinations all still exist, each undo move recreates its source, and
later undo moves never erase an already-restored source. -/
theorem cutUndoFold_restores (dstDir : Path) (pairs : List (Path × Path)) :
    ∀ fs : List Path, (pairs.map Prod.snd).Nodup →
      (∀ sd ∈ pairs, sd.2 ∈ fs ∧ InDst dstDir sd.2 ∧ ¬ InDst dstDir sd.1) →
      ∀ sd ∈ pairs, sd.1 ∈ cutUndoFold pairs fs := by
  induction pairs with
  | nil => intro fs _ _ sd h; simp at h
  | cons p rest ih =>
    intro fs hnd hall sd hsd
    have hp := hall p (List.mem_cons_self _ _)
    rw [cutUndoFold_cons, if_pos hp.1]
    have hndc : (p.2 :: rest.map Prod.snd).Nodup := by
      simpa only [List.map_cons] using hnd
    have hnd2 := List.nodup_cons.mp hndc
    rcases List.mem_cons.mp hsd with he | ht
    · rw [he]
      exact cutUndoFold_preserves dstDir rest _ p.1
        (fun x hx => (hall x (List.mem_cons_of_mem _ hx)).2.1) hp.2.2
        (List.mem_cons_self _ _)
    · apply ih _ hnd2.2 _ sd ht
      intro x hx
      have hx2 := hall x (List.mem_cons_of_mem _ hx)
      refine ⟨?_, hx2.2.1, hx2.2.2⟩
      have hne : x.2 ≠ p.2 := by
        intro he2
        exact hnd2.1 (by rw [← he2]; exact List.mem_map_of_mem Prod.snd hx)
      exact List.mem_cons_of_mem _ ((List.mem_erase_of_ne hne).mpr hx2.1)

theorem copyUndoFold_cons (c : Path) (rest : List Path) (fs : List Path) :
    copyUndoFold (c :: rest) fs = copyUndoFold rest (fs.erase c) := rfl

/-- On a duplicate-free filesystem, undoing a copy deletes exactly the
recorded created paths. -/
theorem copyUndoFold_mem (created : List Path) :
    ∀ (fs : List Path) (p : Path), fs.Nodup →
      (p ∈ copyUndoFold created fs ↔ p ∈ fs ∧ p ∉ created) := by
  induction created with
  | nil => intro fs p _; simp [copyUndoFold]
  | cons c rest ih =>
    intro fs p h
    rw [copyUndoFold_cons, ih _ p (h.erase c), h.mem_erase_iff]
    constructor
    · rintro ⟨⟨hne, hp⟩, hnr⟩
      exact ⟨hp, by simp [hne, hnr]⟩
    · rintro ⟨hp, hnc⟩
      simp only [List.mem_cons, not_or] at hnc
      exact ⟨⟨hnc.1, hp⟩, hnc.2⟩

/-- The loop of `__trash` leaves the state untouched when every
`gfile.trash()` call fails. -/
theorem trashLoop_allfail (sel : List TrashSel) :
    ∀ st : AppState, (∀ c ∈ sel, c.trashFail = true) → trashLoop sel st = (st, []) := by
  induction sel with
  | nil => intro st _; rfl
  | cons c rest ih =>
    intro st hall
    simp only [trashLoop]
    rw [if_pos (hall c (List.mem_cons_self _ _))]
    exact ih st (fun x hx => hall x (List.mem_cons_of_mem _ hx))

/-- The loop of `__trash` never removes anything from the trash store. -/
theorem trashLoop_trashed_monotone (sel : List TrashSel) :
    ∀ (st : AppState) (q : Path × Nat),
      q ∈ st.trashed → q ∈ (trashLoop sel st).1.trashed := by
  induction sel with
  | nil => intro st q h; exact h
  | cons c rest ih =>
    intro st q h
    simp only [trashLoop]
    by_cases hfail : c.trashFail = true
    · rw [if_pos hfail]
      exact ih st q h
    · rw [if_neg hfail]
      exact ih _ q (List.mem_cons_of_mem _ h)

/-- Every pair the trash loop records is in the trash store afterwards. -/
theorem trashLoop_files_trashed (sel : List TrashSel) :
    ∀ (st : AppState), ∀ f ∈ (trashLoop sel st).2, f ∈ (trashLoop sel st).1.trashed := by
  induction sel with
  | nil => intro st f hf; simp [trashLoop] at hf
  | cons c rest ih =>
    intro st f hf
    simp only [trashLoop] at hf ⊢
    by_cases hfail : c.trashFail = true
    · rw [if_pos hfail] at hf ⊢
      exact ih st f hf
    · rw [if_neg hfail] at hf ⊢
      replace hf : f ∈ (c.path, c.ts) ::
          (trashLoop rest
            { st with
                fs := st.fs.erase c.path
                trashed := (c.path, c.ts) :: st.trashed }).2 := hf
      rcases List.mem_cons.mp hf with he | ht
      · rw [he]
        exact trashLoop_trashed_monotone rest _ _ (List.mem_cons_self _ _)
      · exact ih _ f ht

/-- Every pair the trash loop records comes from a selected item whose
`trash()` call succeeded, and records exactly its path and timestamp. -/
theorem trashLoop_origin (sel : List TrashSel) :
    ∀ (st : AppState), ∀ f ∈ (trashLoop sel st).2,
      ∃ c ∈ sel, c.trashFail = false ∧ c.path = f.1 ∧ c.ts = f.2 := by
  induction sel with
  | nil => intro st f hf; simp [trashLoop] at hf
  | cons c rest ih =>
    intro st f hf
    simp only [trashLoop] at hf
    by_cases hfail : c.trashFail = true
    · rw [if_pos hfail] at hf
      obtain ⟨x, hx, hrest⟩ := ih st f hf
      exact ⟨x, List.mem_cons_of_mem _ hx, hrest⟩
    · rw [if_neg hfail] at hf
      replace hf : f ∈ (c.path, c.ts) ::
          (trashLoop rest
            { st with
                fs := st.fs.erase c.path
                trashed := (c.path, c.ts) :: st.trashed }).2 := hf
      rcases List.mem_cons.mp hf with he | ht
      · refine ⟨c, List.mem_cons_self _ _, ?_, ?_, ?_⟩
        · cases hb : c.trashFail with
          | false => rfl
          | true => exact absurd hb hfail
        · rw [he]
        · rw [he]
      · obtain ⟨x, hx, hrest⟩ := ih _ f ht
        exact ⟨x, List.mem_cons_of_mem _ hx, hrest⟩

/-- With pairwise-distinct selected paths the recorded pairs are
pairwise distinct. -/
theorem trashLoop_files_nodup (sel : List TrashSel) :
    ∀ st : AppState, (sel.map TrashSel.path).Nodup → (trashLoop sel st).2.Nodup := by
  induction sel with
  | nil => intro st _; simp [trashLoop]
  | cons c rest ih =>
    intro st hnd
    have hndc : (c.path :: rest.map TrashSel.path).Nodup := by
      simpa only [List.map_cons] using hnd
    have hnd2 := List.nodup_cons.mp hndc
    simp only [trashLoop]
    by_cases hfail : c.trashFail = true
    · rw [if_pos hfail]
      exact ih st hnd2.2
    · rw [if_neg hfail]
      refine List.nodup_cons.mpr ⟨?_, ih _ hnd2.2⟩
      intro hmem
      obtain ⟨x, hx, _, hp, _⟩ := trashLoop_origin rest _ _ hmem
      have hp2 : x.path = c.path := hp
      exact hnd2.1 (by rw [← hp2]; exact List.mem_map_of_mem TrashSel.path hx)

theorem trashUndoFold_cons (g : Path × Nat) (rest : List (Path × Nat)) (st : AppState) :
    trashUndoFold (g :: rest) st = trashUndoFold rest (restore_file g.1 g.2 st) := rfl

/-- Restoring trashed items only ever adds paths to the filesystem. -/
theorem trashUndoFold_fs_monotone (files : List (Path × Nat)) :
    ∀ (st : AppState) (q : Path), q ∈ st.fs → q ∈ (trashUndoFold files st).fs := by
  induction files with
  | nil => intro st q h; exact h
  | cons g rest ih =>
    intro st q h
    rw [trashUndoFold_cons]
    apply ih
    unfold restore_file
    split
    · exact List.mem_cons_of_mem _ h
    · exact h

/-- Undoing a trash restores every recorded pair's original path,
provided each recorded pair is present in the trash store. -/
theorem trashUndoFold_restores (files : List (Path × Nat)) :
    ∀ st : AppState, files.Nodup → (∀ f ∈ files, f ∈ st.trashed) →
      ∀ f ∈ files, f.1 ∈ (trashUndoFold files st).fs := by
  induction files with
  | nil => intro st _ _ f hf; simp at hf
  | cons g rest ih =>
    intro st hnd hall f hf
    have hnd2 := List.nodup_cons.mp hnd
    have hg : (g.1, g.2) ∈ st.trashed := hall g (List.mem_cons_self _ _)
    rw [trashUndoFold_cons]
    have hst1 : restore_file g.1 g.2 st =
        { st with trashed := st.trashed.erase (g.1, g.2), fs := g.1 :: st.fs } := by
      unfold restore_file
      rw [if_pos hg]
    rcases List.mem_cons.mp hf with he | ht
    · rw [he]
      apply trashUndoFold_fs_monotone
      rw [hst1]
      exact List.mem_cons_self _ _
    · apply ih _ hnd2.2 _ f ht
      intro x hx
      have hxt : x ∈ st.trashed := hall x (List.mem_cons_of_mem _ hx)
      have hne : x ≠ (g.1, g.2) := by
        intro he2
        have he3 : x = g := he2
        exact hnd2.1 (by rw [← he3]; exact hx)
      rw [hst1]
      exact (List.mem_erase_of_ne hne).mpr hxt

/-- `__trash` never removes anything from the trash store beyond what
its loop produced. -/
theorem trash_trashed (key : Nat) (sel : List TrashSel) (st : AppState) :
    (trash key sel st).trashed = (trashLoop sel st).1.trashed := by
  unfold trash
  split
  · rfl
  · rfl

/-- After three successful samples, `index == 3` short-circuits into
`done(index - 1)` regardless of further enumeration events. -/
theorem next_files_cb_three (steps : List EnumStep) :
    next_files_cb 3 steps = ([], openFlag 2) := by
  cases steps with
  | nil => rfl
  | cons s rest => cases s <;> rfl

/-- Bound and openness of the `next_files_cb` chain, generalized over
the starting index. -/
theorem next_files_cb_spec (steps : List EnumStep) :
    ∀ index : Nat, index ≤ 3 →
      (next_files_cb index steps).1.length + index ≤ 3 ∧
      ((next_files_cb index steps).2 = true ↔
        (index ≠ 0 ∨ (next_files_cb index steps).1 ≠ [])) := by
  induction steps with
  | nil =>
    intro index h
    by_cases h3 : index = 3
    · subst h3
      rw [next_files_cb_three]
      simp [openFlag]
    · simp only [next_files_cb, if_neg h3]
      refine ⟨by simpa using h, ?_⟩
      simp [openFlag]
  | cons s rest ih =>
    intro index h
    by_cases h3 : index = 3
    · subst h3
      rw [next_files_cb_three]
      simp [openFlag]
    · cases s with
      | err =>
        simp only [next_files_cb, if_neg h3]
        refine ⟨by simpa using h, ?_⟩
        simp [openFlag]
      | emptyResult =>
        simp only [next_files_cb, if_neg h3]
        refine ⟨by simpa using h, ?_⟩
        simp [openFlag]
      | noContentType =>
        simp only [next_files_cb, if_neg h3]
        refine ⟨by simpa using h, ?_⟩
        simp [openFlag]
      | child d t =>
        have hlt : index + 1 ≤ 3 := by omega
        have hrec := ih (index + 1) hlt
        simp only [next_files_cb, if_neg h3]
        constructor
        · simp only [List.length_cons]
          omega
        · have hflag : (next_files_cb (index + 1) rest).2 = true := by
            rw [hrec.2]
            exact Or.inl (by omega)
          simp [hflag]

/-- Dict lookup by the last key of an insertion-ordered dict whose other
keys differ. -/
theorem lookupEntry_append (k : Nat) (a : UndoAction) :
    ∀ pre : List (Nat × UndoAction), k ∉ pre.map Prod.fst →
      lookupEntry k (pre ++ [(k, a)]) = some a := by
  intro pre
  induction pre with
  | nil =>
    intro _
    simp [lookupEntry]
  | cons e rest ih =>
    intro hk
    have hne : e.1 ≠ k := by
      intro he
      exact hk (by rw [← he]; exact List.mem_cons_self _ _)
    rw [List.cons_append]
    simp only [lookupEntry, if_neg hne]
    exact ih (fun hm => hk (List.mem_cons_of_mem _ hm))

/-- A default undo on a queue ending in key `k`, with `k` distinct from
the other keys, applies that last entry's reversal and then pops the
last entry. -/
theorem undo_default (fs0 : List Path) (tr : List (Path × Nat)) (ts0 : List String)
    (pre : List (Nat × UndoAction)) (k : Nat) (a : UndoAction)
    (hk : k ∉ pre.map Prod.fst) :
    undo none (AppState.mk fs0 tr (pre ++ [(k, a)]) ts0) =
      { applyUndoAction (AppState.mk fs0 tr (pre ++ [(k, a)]) ts0) a with
          undo_queue :=
            (applyUndoAction (AppState.mk fs0 tr (pre ++ [(k, a)]) ts0) a).undo_queue.dropLast } := by
  have hne : (AppState.mk fs0 tr (pre ++ [(k, a)]) ts0).undo_queue ≠ [] := by simp
  unfold undo
  rw [dif_neg hne]
  rw [List.getLast_concat]
  rw [lookupEntry_append k a pre hk]

/-! Claim theorems. -/

/-- Claim C1, settled against the code: the spec says every delivery
path re-checks the generation token before applying a result, so a
token-1 result arriving after token 2 was issued for the same slot is
discarded.  In the code `unbind` is empty and `__thumbnail_cb` writes
`thumbnail_paintable` unconditionally: on the trace bind 1, bind 2,
deliver 1 — the slot is rebound before the first request's result
arrives — `slotRun` applies the stale token-1 result even though the
slot's latest issued token is 2. -/
theorem C1_stale_result_applied :
    (slotRun (SlotState.mk 0 []) [.bind 1, .bind 2, .deliver 1]).applied = [1] ∧
    (slotRun (SlotState.mk 0 []) [.bind 1, .bind 2, .deliver 1]).latest = 2 := by
  constructor <;> rfl

/-- Claim C2, settled against the code: undoing via a specific toast
should remove exactly that entry from the queue.  With queue
`[(1, copy [x]), (2, copy [y])]`, `undo` on toast 1 performs entry 1's
reversal (deleting `x`) but `popitem()` then removes entry 2, leaving
entry 1 still queued. -/
theorem C2_toast_undo_pops_last_entry :
    undo (some 1)
        (AppState.mk [["x"], ["y"]] [] [(1, .copy [["x"]]), (2, .copy [["y"]])] []) =
      AppState.mk [["y"]] [] [(1, .copy [["x"]])] [] := by
  decide

/-- Claim C3: pasting a cut batch and then undoing it restores every
successfully-moved item to its original source path, and every recorded
pair of the batch comes from a clipboard item whose move did not fail —
an item whose move raised an OS-level error contributes nothing to the
batch and hence nothing to its undo. -/
theorem C3_move_then_undo_restores (dstDir : Path) (items : List ClipItem) (fs : List Path) :
    (∀ sd ∈ (pasteCutLoop dstDir items fs).2,
        sd.1 ∈ cutUndoFold (pasteCutLoop dstDir items fs).2 (pasteCutLoop dstDir items fs).1) ∧
    (∀ sd ∈ (pasteCutLoop dstDir items fs).2,
        ∃ it ∈ items, it.osFail = false ∧ it.src = sd.1 ∧
          sd.2 = dstDir ++ [Pathname it.src]) := by
  constructor
  · intro sd hsd
    apply cutUndoFold_restores dstDir _ _ (pasteCutLoop_nodup dstDir items fs) _ sd hsd
    intro x hx
    have h := pasteCutLoop_pairs dstDir items fs x hx
    exact ⟨h.2.2.2, h.2.2.1, h.2.1⟩
  · exact pasteCutLoop_origin dstDir items fs

theorem C3_witness :
    (["a"] : Path) ∈
      cutUndoFold (pasteCutLoop ["d"] [ClipItem.mk ["a"] false false] [["a"]]).2
        (pasteCutLoop ["d"] [ClipItem.mk ["a"] false false] [["a"]]).1 :=
  (C3_move_then_undo_restores ["d"] [ClipItem.mk ["a"] false false] [["a"]]).1
    (["a"], ["d", "a"]) (by decide)

/-- Claim C4, counterexample: copying files `a` and `b` into `d` where
`d/b` already exists yields two recorded successes, not one success and
one failure — `shutil.copyfile` overwrites the colliding destination —
and the batch's undo then deletes the pre-existing `d/b`. -/
theorem C4_counterexample :
    (pasteCopyLoop ["d"] [ClipItem.mk ["a"] false false, ClipItem.mk ["b"] false false]
        [["a"], ["b"], ["d", "b"]]).2.1 = [["d", "a"], ["d", "b"]] ∧
    ["d", "b"] ∈ ([["a"], ["b"], ["d", "b"]] : List Path) ∧
    ["d", "b"] ∉ copyUndoFold
        (pasteCopyLoop ["d"] [ClipItem.mk ["a"] false false, ClipItem.mk ["b"] false false]
            [["a"], ["b"], ["d", "b"]]).2.1
        (pasteCopyLoop ["d"] [ClipItem.mk ["a"] false false, ClipItem.mk ["b"] false false]
            [["a"], ["b"], ["d", "b"]]).1 := by
  decide

/-- Claim C4 as amended: in a copy batch, a destination name collision
is a per-item failure for a directory item only (a toast is sent and the
rest of the batch proceeds, nothing is rolled back); for a regular-file
item the pre-existing destination is overwritten and the item counts as
a success and is recorded; only recorded created destination paths exist
in the batch, and undoing the batch deletes exactly the recorded
paths. -/
theorem C4_copy_collision_semantics (dstDir : Path) :
    (∀ (it : ClipItem) (rest : List ClipItem) (fs : List Path),
        it.src ∈ fs → it.is_dir = true → dstDir ++ [Pathname it.src] ∈ fs →
        pasteCopyLoop dstDir (it :: rest) fs =
          ((pasteCopyLoop dstDir rest fs).1, (pasteCopyLoop dstDir rest fs).2.1,
            "A folder with that name already exists." ::
              (pasteCopyLoop dstDir rest fs).2.2)) ∧
    (∀ (it : ClipItem) (rest : List ClipItem) (fs : List Path),
        it.src ∈ fs → it.is_dir = false → it.osFail = false →
        (pasteCopyLoop dstDir (it :: rest) fs).2.1 =
          (dstDir ++ [Pathname it.src]) ::
            (pasteCopyLoop dstDir rest
              (if dstDir ++ [Pathname it.src] ∈ fs then fs
               else (dstDir ++ [Pathname it.src]) :: fs)).2.1) ∧
    (∀ (st : AppState) (created : List Path) (p : Path),
        st.fs.Nodup →
        (p ∈ (applyUndoAction st (.copy created)).fs ↔ p ∈ st.fs ∧ p ∉ created)) := by
  refine ⟨?_, ?_, ?_⟩
  · intro it rest fs h1 h2 h3
    simp only [pasteCopyLoop]
    rw [if_pos h1, if_pos h2, if_pos h3]
  · intro it rest fs h1 h2 h3
    simp only [pasteCopyLoop]
    rw [if_pos h1, if_neg (by simp [h2]), if_neg (by simp [h3])]
  · intro st created p hnd
    unfold applyUndoAction
    exact copyUndoFold_mem created st.fs p hnd

theorem C4_witness :
    pasteCopyLoop ["d"] [ClipItem.mk ["c"] true false] [["c"], ["d", "c"]] =
        ([["c"], ["d", "c"]], [], ["A folder with that name already exists."]) ∧
    (pasteCopyLoop ["d"] [ClipItem.mk ["b"] false false] [["b"], ["d", "b"]]).2.1 =
        [["d", "b"]] ∧
    ((["p"] : Path) ∈
        (applyUndoAction (AppState.mk [["p"], ["q"]] [] [] []) (.copy [["q"]])).fs ↔
      (["p"] : Path) ∈ ([["p"], ["q"]] : List Path) ∧ (["p"] : Path) ∉ ([["q"]] : List Path)) :=
  ⟨(C4_copy_collision_semantics ["d"]).1 (ClipItem.mk ["c"] true false) []
      [["c"], ["d", "c"]] (by decide) rfl (by decide),
    (C4_copy_collision_semantics ["d"]).2.1 (ClipItem.mk ["b"] false false) []
      [["b"], ["d", "b"]] (by decide) rfl rfl,
    (C4_copy_collision_semantics ["d"]).2.2 (AppState.mk [["p"], ["q"]] [] [] [])
      [["q"]] ["p"] (by decide)⟩

/-- Claim C5, counterexample: a paste batch in which the only item's
source does not exist — so zero items succeed — still pushes an undo
entry (with an empty created-paths list) onto the queue, and raises no
failure notification. -/
theorem C5_counterexample :
    (pasteCopy ["d"] 7 [ClipItem.mk ["gone"] false false]
        (AppState.mk [] [] [] [])).undo_queue = [(7, .copy [])] ∧
    (pasteCopy ["d"] 7 [ClipItem.mk ["gone"] false false]
        (AppState.mk [] [] [] [])).toasts = [] := by
  decide

/-- Claim C5 as amended: a trash batch with zero successes creates no
undo entry, raises no notification, and leaves the state untouched; a
paste batch (copy or cut) pushes an undo entry unconditionally — even
when zero items succeed — and raises no aggregated failure
notification. -/
theorem C5_zero_success_behaviour (key : Nat) :
    (∀ (sel : List TrashSel) (st : AppState),
        (∀ c ∈ sel, c.trashFail = true) → trash key sel st = st) ∧
    (∀ (dstDir : Path) (items : List ClipItem) (st : AppState),
        (pasteCut dstDir key items st).undo_queue =
          st.undo_queue ++ [(key, .cut (pasteCutLoop dstDir items st.fs).2)]) ∧
    (∀ (dstDir : Path) (items : List ClipItem) (st : AppState),
        (pasteCopy dstDir key items st).undo_queue =
          st.undo_queue ++ [(key, .copy (pasteCopyLoop dstDir items st.fs).2.1)]) := by
  refine ⟨?_, ?_, ?_⟩
  · intro sel st hall
    unfold trash
    rw [trashLoop_allfail sel st hall]
    simp
  · intro dstDir items st
    rfl
  · intro dstDir items st
    rfl

theorem C5_witness :
    trash 3 [TrashSel.mk ["a"] 0 true] (AppState.mk [["a"]] [] [] []) =
        AppState.mk [["a"]] [] [] [] ∧
    (pasteCut ["d"] 3 [] (AppState.mk [] [] [] [])).undo_queue = [(3, .cut [])] ∧
    (pasteCopy ["d"] 3 [] (AppState.mk [] [] [] [])).undo_queue = [(3, .copy [])] :=
  ⟨(C5_zero_success_behaviour 3).1 [TrashSel.mk ["a"] 0 true] (AppState.mk [["a"]] [] [] [])
      (by decide),
    (C5_zero_success_behaviour 3).2.1 ["d"] [] (AppState.mk [] [] [] []),
    (C5_zero_success_behaviour 3).2.2 ["d"] [] (AppState.mk [] [] [] [])⟩

/-- Claim C6: for every directory preview sampling run, the resulting
stack holds at most 3 child samples, and the `open_folder` flag is true
exactly when at least one child was enumerated (zero enumerable children
give the closed-folder rendering). -/
theorem C6_dir_stack_bound (enumerateOk : Bool) (steps : List EnumStep) :
    (dir_children_cb enumerateOk steps).1.length ≤ 3 ∧
    ((dir_children_cb enumerateOk steps).2 = true ↔
      (dir_children_cb enumerateOk steps).1 ≠ []) := by
  cases enumerateOk with
  | false =>
    constructor
    · simp [dir_children_cb]
    · simp [dir_children_cb]
  | true =>
    have h := next_files_cb_spec steps 0 (by omega)
    have he : dir_children_cb true steps = next_files_cb 0 steps := by
      unfold dir_children_cb
      rw [if_pos rfl]
    rw [he]
    refine ⟨by omega, ?_⟩
    rw [h.2]
    simp

/-- Claim C7: every successfully trashed item's original path and trash
timestamp are recorded; items whose `trash()` call failed are excluded
from the batch; and undoing the batch — which consumes only the recorded
`(path, timestamp)` pairs — restores each recorded item to its original
path, doing nothing for the failed items since they are absent. -/
theorem C7_trash_then_undo_restores (key : Nat) (sel : List TrashSel) (st : AppState)
    (hnd : (sel.map TrashSel.path).Nodup) :
    (∀ f ∈ (trashLoop sel st).2,
        ∃ c ∈ sel, c.trashFail = false ∧ c.path = f.1 ∧ c.ts = f.2) ∧
    (∀ c ∈ sel, c.trashFail = true → (c.path, c.ts) ∉ (trashLoop sel st).2) ∧
    (∀ f ∈ (trashLoop sel st).2,
        f.1 ∈ (trashUndoFold (trashLoop sel st).2 (trash key sel st)).fs) := by
  refine ⟨trashLoop_origin sel st, ?_, ?_⟩
  · intro c hc hfl hmem
    obtain ⟨c2, hc2, hfl2, hp2, _⟩ := trashLoop_origin sel st _ hmem
    have hp3 : c2.path = c.path := hp2
    have hcc : c2 = c := List.inj_on_of_nodup_map hnd hc2 hc hp3
    rw [hcc, hfl] at hfl2
    exact Bool.noConfusion hfl2
  · intro f hf
    apply trashUndoFold_restores (trashLoop sel st).2 (trash key sel st)
      (trashLoop_files_nodup sel st hnd) _ f hf
    intro x hx
    rw [trash_trashed]
    exact trashLoop_files_trashed sel st x hx

theorem C7_witness :
    (["a"] : Path) ∈
      (trashUndoFold (trashLoop [TrashSel.mk ["a"] 5 false] (AppState.mk [["a"]] [] [] [])).2
        (trash 9 [TrashSel.mk ["a"] 5 false] (AppState.mk [["a"]] [] [] []))).fs :=
  (C7_trash_then_undo_restores 9 [TrashSel.mk ["a"] 5 false] (AppState.mk [["a"]] [] [] [])
      (by decide)).2.2 (["a"], 5) (by decide)

/-- Claim C8, counterexample: an undo whose rename reversal fails — the
renamed file `g` no longer exists — is not reported: the toast list is
unchanged (empty), while the queue entry is still removed and nothing is
re-queued. -/
theorem C8_counterexample :
    (["g"] : Path) ∉ (AppState.mk [["other"]] [] [(5, .rename ["g"] "o")] []).fs ∧
    (undo none (AppState.mk [["other"]] [] [(5, .rename ["g"] "o")] [])).toasts = [] ∧
    (undo none (AppState.mk [["other"]] [] [(5, .rename ["g"] "o")] [])).undo_queue = [] := by
  decide

/-- Claim C8 as amended: when an undo's rename reversal fails because
the renamed file no longer exists, the failure is silently swallowed
(`except GLib.Error: pass` — no notification is emitted), the queue
entry is still removed, and the undo is not retried: the whole effect of
the undo is dropping the last queue entry. -/
theorem C8_undo_failure_silently_removed (fs0 : List Path) (tr : List (Path × Nat))
    (ts0 : List String) (pre : List (Nat × UndoAction)) (k : Nat) (p : Path) (old : String)
    (hk : k ∉ pre.map Prod.fst) (hfail : p ∉ fs0) :
    undo none (AppState.mk fs0 tr (pre ++ [(k, .rename p old)]) ts0) =
      AppState.mk fs0 tr pre ts0 := by
  rw [undo_default fs0 tr ts0 pre k (.rename p old) hk]
  have happ : applyUndoAction (AppState.mk fs0 tr (pre ++ [(k, UndoAction.rename p old)]) ts0)
      (UndoAction.rename p old) =
        AppState.mk fs0 tr (pre ++ [(k, UndoAction.rename p old)]) ts0 := by
    simp only [applyUndoAction]
    rw [if_neg hfail]
  rw [happ]
  simp [List.dropLast_concat]

theorem C8_witness :
    undo none (AppState.mk [] [] [(5, .rename ["g"] "o")] []) = AppState.mk [] [] [] [] :=
  C8_undo_failure_silently_removed [] [] [] [] 5 ["g"] "o" (by decide) (by decide)

/-- Claim C9: for a file with no cached thumbnail on a location where
the filesystem disables previews, the fallback icon is delivered
immediately and no generation is scheduled; a decode failure of a cached
thumbnail degrades to the fallback icon; and a generation failure also
degrades to the fallback icon — `Delivery` has no error alternative, so
no hard error can reach the caller. -/
theorem C9_preview_fallback :
    (∀ fi : FileInfo, fi.thumbnail_path = none →
        fi.use_preview = FILESYSTEM_PREVIEW_NEVER →
        bind_file_thumbnail fi = .delivered .fallbackIcon) ∧
    (∀ (fi : FileInfo) (p : String), fi.thumbnail_path = some p → fi.decode_ok = false →
        bind_file_thumbnail fi = .delivered .fallbackIcon) ∧
    (∀ tex : Texture, thumbnail_cb_file (generate_thumbnail false tex) = .fallbackIcon) := by
  refine ⟨?_, ?_, ?_⟩
  · intro fi h1 h2
    obtain ⟨tp, dok, up⟩ := fi
    have h1b : tp = none := h1
    have h2b : up = FILESYSTEM_PREVIEW_NEVER := h2
    subst h1b
    subst h2b
    simp [bind_file_thumbnail, thumbnail_cb_file]
  · intro fi p h1 h2
    obtain ⟨tp, dok, up⟩ := fi
    have h1b : tp = some p := h1
    have h2b : dok = false := h2
    subst h1b
    subst h2b
    simp [bind_file_thumbnail, thumbnail_cb_file]
  · intro tex
    rfl

theorem C9_witness :
    bind_file_thumbnail (FileInfo.mk none true 2) = .delivered .fallbackIcon ∧
    bind_file_thumbnail (FileInfo.mk (some "t") false 0) = .delivered .fallbackIcon ∧
    thumbnail_cb_file (generate_thumbnail false "x") = .fallbackIcon :=
  ⟨C9_preview_fallback.1 (FileInfo.mk none true 2) rfl rfl,
    C9_preview_fallback.2.1 (FileInfo.mk (some "t") false 0) "t" rfl rfl,
    C9_preview_fallback.2.2 "x"⟩

/-- Claim C10: undo on an empty queue is a total, silent no-op —
`if not self.undo_queue: return` fires before any lookup or mutation, so
the state is returned unchanged whatever triggered the undo. -/
theorem C10_undo_empty_queue_noop (toast : Option Nat) (st : AppState)
    (h : st.undo_queue = []) : undo toast st = st := by
  unfold undo
  rw [dif_pos h]

theorem C10_witness :
    undo none (AppState.mk [["a"]] [] [] ["t"]) = AppState.mk [["a"]] [] [] ["t"] :=
  C10_undo_empty_queue_noop none (AppState.mk [["a"]] [] [] ["t"]) rfl

end Hyperplane
